import Mathlib

/-!
Shallow embedding of the airtablewatcher Go package (tasker.go, rows.go,
config.go) and proofs about its specification.

Conventions of the embedding:
* Go `interface{}` field values are modelled by the inductive `FieldValue`
  (string / bool / float64 / anything else); a `float64` is represented by
  its value in millionths (an unbounded `Int`), which is exactly the
  information printed by Go's `fmt.Sprintf("%f", v)` (six fractional
  digits); non-finite floats and negative zero are outside the model.
* Go `error` values are modelled as `String`, fallible calls as `Except`.
* The airtable client is a black-box collaborator: a record of functions
  giving the outcome of ListRecords / RetrieveRecord at the moment of the
  call.  Time-varying remote state is modelled by indexing the client by
  the poll-cycle (for Start) or loop-iteration (for watchForCancel) at
  which a call is made.
* Callbacks are external user code; an invocation is recorded as trace
  events (callStart / callEnd / ctxCancel) rather than executed.
-/

namespace AirtableWatcher

/-- A field value inside a row's JSON-like fields mapping (`interface{}`
in Go after JSON decoding): a string, a boolean, a float64 (represented by
its value in millionths, see module docstring), or any other value
(including JSON null), which every type assertion in the source fails on. -/
inductive FieldValue where
  | str (s : String)
  | boolean (b : Bool)
  | num (micros : Int)
  | other
  deriving DecidableEq, Repr

/-- The `Fields interface{}` member of a Go `Row`: either a
`map[string]interface{}` (an association list with distinct keys after
JSON decoding; lookup takes the first binding) or some other value, on
which the type assertion in `GetField` fails. -/
inductive FieldsValue where
  | map (m : List (String × FieldValue))
  | other
  deriving DecidableEq, Repr

/-- Go `Row` from tasker.go: `{ ID string; Fields interface{} }`. -/
structure Row where
  ID : String
  Fields : FieldsValue
  deriving DecidableEq, Repr

instance : Inhabited Row := ⟨⟨"", .other⟩⟩

/-- Go `GetField` (tasker.go:216): cast `Fields` to `map[string]interface{}`
and look the field name up; `none` models the Go `nil` returned when the
cast fails or the key is absent. -/
def Row.GetField (r : Row) (fieldName : String) : Option FieldValue :=
  match r.Fields with
  | .map m => m.lookup fieldName
  | .other => none

/-- Rendering of `fmt.Sprintf("%f", v)` for a float64 `v` represented by
`micros` = v in millionths: sign, integer part, a dot, and exactly six
fractional digits. -/
def formatFloat (micros : Int) : String :=
  let sign := if micros < 0 then "-" else ""
  let a := micros.natAbs
  let frac := toString (a % 1000000)
  sign ++ toString (a / 1000000) ++ "." ++
    String.mk (List.replicate (6 - frac.length) '0') ++ frac

/-- Go `GetFieldString` (tasker.go:227): type-switch on the field value —
string is returned unchanged, bool becomes "true"/"false", float64 is
printed with `%f`, everything else (including an absent field) yields "". -/
def Row.GetFieldString (r : Row) (fieldName : String) : String :=
  match r.GetField fieldName with
  | some (.str s) => s
  | some (.boolean b) => if b then "true" else "false"
  | some (.num micros) => formatFloat micros
  | some .other => ""
  | none => ""

/-- A Go `time.Time` in UTC, modelled by the components handed to
`time.Date` / produced by `time.Parse`.  The components are kept exactly
as written at the construction site (Go normalises out-of-range
components internally; values produced by a successful parse are already
in range, so they never collide with the out-of-range sentinel below). -/
structure GoTime where
  year : Nat
  month : Nat
  day : Nat
  hour : Nat
  minute : Nat
  second : Nat
  nsec : Nat
  deriving DecidableEq, Repr

/-- Go `DefaultBlankTime = time.Date(1, 0, 0, 0, 0, 0, 0, time.UTC)`
(tasker.go:24). -/
def DefaultBlankTime : GoTime := ⟨1, 0, 0, 0, 0, 0, 0⟩

/-- Two characters as a two-digit decimal number, if both are digits. -/
def digit2 (a b : Char) : Option Nat :=
  if a.isDigit && b.isDigit then
    some ((a.toNat - 48) * 10 + (b.toNat - 48))
  else none

/-- Three characters as a three-digit decimal number. -/
def digit3 (a b c : Char) : Option Nat :=
  if a.isDigit && b.isDigit && c.isDigit then
    some (((a.toNat - 48) * 100 + (b.toNat - 48) * 10) + (c.toNat - 48))
  else none

/-- Four characters as a four-digit decimal number. -/
def digit4 (a b c d : Char) : Option Nat :=
  if a.isDigit && b.isDigit && c.isDigit && d.isDigit then
    some ((a.toNat - 48) * 1000 + (b.toNat - 48) * 100 +
          (c.toNat - 48) * 10 + (d.toNat - 48))
  else none

/-- Gregorian leap-year rule, as in Go's time package. -/
def isLeap (y : Nat) : Bool :=
  y % 4 == 0 && (y % 100 != 0 || y % 400 == 0)

/-- Days in a month, as validated by Go's `time.Parse`. -/
def daysInMonth (y m : Nat) : Nat :=
  if m == 2 then (if isLeap y then 29 else 28)
  else if m == 4 || m == 6 || m == 9 || m == 11 then 30
  else 31

/-- Go `time.Parse(AirtableDateFormat, s)` for the fixed layout
`"2006-01-02T15:04:05.000Z"` (tasker.go:19): the string must be exactly
`YYYY-MM-DDTHH:MM:SS.mmm` followed by a literal `Z` (the lone `Z` in the
layout is a literal, so the parsed time is UTC), with all components in
range; `none` models a parse error. -/
def parseAirtableTime (s : String) : Option GoTime :=
  match s.data with
  | [y1, y2, y3, y4, '-', mo1, mo2, '-', d1, d2, 'T',
     h1, h2, ':', mi1, mi2, ':', s1, s2, '.', f1, f2, f3, 'Z'] => do
    let year ← digit4 y1 y2 y3 y4
    let month ← digit2 mo1 mo2
    let day ← digit2 d1 d2
    let hour ← digit2 h1 h2
    let minute ← digit2 mi1 mi2
    let second ← digit2 s1 s2
    let ms ← digit3 f1 f2 f3
    if 1 ≤ month ∧ month ≤ 12 ∧ 1 ≤ day ∧ day ≤ daysInMonth year month ∧
       hour ≤ 23 ∧ minute ≤ 59 ∧ second ≤ 59 then
      some ⟨year, month, day, hour, minute, second, ms * 1000000⟩
    else none
  | _ => none

/-- Go `GetFieldTime` (tasker.go:246): take the string form of the field; an
empty string, or any string `time.Parse` rejects, yields
`DefaultBlankTime`; a successful parse yields the parsed time. -/
def Row.GetFieldTime (r : Row) (fieldName : String) : GoTime :=
  let timeStr := r.GetFieldString fieldName
  if timeStr = "" then DefaultBlankTime
  else
    match parseAirtableTime timeStr with
    | some t => t
    | none => DefaultBlankTime

/-- The black-box airtable client (`*airtable.Client`): the outcome of a
`ListRecords` call for each table, and of a `RetrieveRecord` call for
each (table, record id) pair, at the moment the call is made. -/
structure AirtableClient where
  ListRecords : String → Except String (List Row)
  RetrieveRecord : String → String → Except String Row

/-- Go `GetRows` (tasker.go:94): list the records of a table, passing any
client error through unchanged. -/
def GetRows (c : AirtableClient) (tableName : String) : Except String (List Row) :=
  match c.ListRecords tableName with
  | .error e => .error e
  | .ok tasks => .ok tasks

/-- Go `GetRow` (tasker.go:184): retrieve one record by id, passing any
client error through unchanged. -/
def GetRow (c : AirtableClient) (tableName recordID : String) : Except String Row :=
  match c.RetrieveRecord tableName recordID with
  | .error e => .error e
  | .ok row => .ok row

/-- The row-scanning loop of `GetConfig` (config.go:12): return the
"Value" string of the first row whose "Key" string equals the key. -/
def findConfig (key : String) : List Row → Except String String
  | [] => .error "config key not found"
  | row :: rest =>
    if row.GetFieldString "Key" = key then .ok (row.GetFieldString "Value")
    else findConfig key rest

/-- Go `GetConfig` (config.go:6): list the config table's rows (propagating
a fetch error), then scan them in listing order for the key. -/
def GetConfig (c : AirtableClient) (configTableName key : String) : Except String String :=
  match GetRows c configTableName with
  | .error e => .error e
  | .ok rows => findConfig key rows

/-- Go `watch` (tasker.go:48): one registered trigger.  The Go struct also
holds the callback (`actionFunction`); callbacks are external user code,
so an invocation is identified here by the watch's position in the
registry and recorded as trace events instead of being executed. -/
structure Watch where
  tableName : String
  fieldName : String
  triggerValue : String
  cancelValues : List String
  deriving DecidableEq, Repr

instance : Inhabited Watch := ⟨⟨"", "", "", []⟩⟩

/-- Go `RegisterFunction` (tasker.go:89): append one watch (its variadic
`cancelValue` list included) to the registry. -/
def RegisterFunction (watchers : List Watch) (tableName fieldName triggerValue : String)
    (cancelValue : List String) : List Watch :=
  watchers ++ [⟨tableName, fieldName, triggerValue, cancelValue⟩]

/-- Building the `tables` set in `Start` (tasker.go:111): Go set insert,
keeping the first occurrence. -/
def insertTable (tables : List String) (t : String) : List String :=
  if t ∈ tables then tables else tables ++ [t]

/-- The distinct tables referenced by the registered watches
(tasker.go:111-114).  Go iterates the resulting map in unspecified
order; the model fixes first-occurrence order (the theorems below do not
depend on which enumeration order is chosen). -/
def scanTables (watchers : List Watch) : List String :=
  watchers.foldl (fun acc w => insertTable acc w.tableName) []

/-- Observable actions of one poll cycle of `Start`.  An invocation is
identified by (table name, position of the row in the fetched list,
position of the watch in the registry). -/
inductive TraceEvent where
  | fetchTable (table : String)
  | callStart (table : String) (rowPos watchIdx : Nat)
  | callEnd (table : String) (rowPos watchIdx : Nat)
  | ctxCancel (table : String) (rowPos watchIdx : Nat)
  deriving DecidableEq, Repr

/-- The events of one dispatch (tasker.go:132-142): derive the context,
invoke the callback synchronously (start, then end once it returns),
then call the invocation's cancel function. -/
def dispatchChunk (table : String) (rowPos watchIdx : Nat) : List TraceEvent :=
  [.callStart table rowPos watchIdx, .callEnd table rowPos watchIdx,
   .ctxCancel table rowPos watchIdx]

/-- Does this watch fire on this row of this table (tasker.go:128-132)? -/
def watchMatches (w : Watch) (table : String) (row : Row) : Bool :=
  w.tableName == table && row.GetFieldString w.fieldName == w.triggerValue

/-- The inner watcher loop of `Start` (tasker.go:126-143) for one row:
each watch, in registration order, is skipped if its table differs, and
dispatched if the row's field string equals its trigger value.  `idx` is
the registry position of the first watch in the list. -/
def rowWatchersAux (table : String) (rowPos : Nat) (row : Row) :
    Nat → List Watch → List TraceEvent
  | _, [] => []
  | idx, w :: rest =>
    (if w.tableName ≠ table then []
     else if row.GetFieldString w.fieldName = w.triggerValue then
       dispatchChunk table rowPos idx
     else []) ++ rowWatchersAux table rowPos row (idx + 1) rest

/-- The row loop of `Start` (tasker.go:124-144): rows in fetched order,
`pos` the position of the first row in the list. -/
def tableRowsAux (table : String) (watchers : List Watch) :
    Nat → List Row → List TraceEvent
  | _, [] => []
  | pos, row :: rest =>
    rowWatchersAux table pos row 0 watchers ++
      tableRowsAux table watchers (pos + 1) rest

/-- The table loop of `Start` (tasker.go:117-145): fetch each table's
rows; a fetch error aborts the whole run at once (tables after the
failing one are not fetched, no rows of the failing table are
processed), otherwise process every row before the next fetch.  Returns
the trace and the fetch error, if any. -/
def runTables (c : AirtableClient) (watchers : List Watch) :
    List String → List TraceEvent × Option String
  | [] => ([], none)
  | t :: rest =>
    match GetRows c t with
    | .error e => ([.fetchTable t], some e)
    | .ok rows =>
      let tail := runTables c watchers rest
      (.fetchTable t :: (tableRowsAux t watchers 0 rows ++ tail.1), tail.2)

/-- One full poll cycle of `Start` (tasker.go:110-145). -/
def pollCycle (c : AirtableClient) (watchers : List Watch) :
    List TraceEvent × Option String :=
  runTables c watchers (scanTables watchers)

/-- The two ways `Start` can return (tasker.go:120 and 150): a fetch
error, or the context's error observed at the end-of-cycle check after
cycle `n` (the Go value is whatever `ctx.Err()` reports, modelled by the
cycle index at which it was observed). -/
inductive StartResult where
  | fetchError (e : String)
  | ctxErr (n : Nat)
  deriving DecidableEq, Repr

/-- The outer loop of `Start` (tasker.go:109-155).  `store n` is the
client's view of the remote store during cycle `n`; `ctxDone n` tells
whether the context's Done channel is closed when the end-of-cycle
select runs after cycle `n`.  `fuel` bounds how many cycles are
unrolled; `none` means the loop is still running after `fuel` cycles. -/
def startLoop (store : Nat → AirtableClient) (ctxDone : Nat → Bool)
    (watchers : List Watch) : Nat → Nat → Option StartResult
  | _, 0 => none
  | cycle, fuel + 1 =>
    match (pollCycle (store cycle) watchers).2 with
    | some e => some (.fetchError e)
    | none =>
      if ctxDone cycle then some (.ctxErr cycle)
      else startLoop store ctxDone watchers (cycle + 1) fuel

/-- Go `Start` (tasker.go:107), beginning at cycle 0. -/
def Start (fuel : Nat) (store : Nat → AirtableClient) (ctxDone : Nat → Bool)
    (watchers : List Watch) : Option StartResult :=
  startLoop store ctxDone watchers 0 fuel

/-- Observable actions of the `watchForCancel` goroutine, tagged with the
loop iteration at which they happen. -/
inductive SupEvent where
  | fetchRow (iter : Nat)
  | cancelCall (iter : Nat)
  deriving DecidableEq, Repr

/-- How a `watchForCancel` run returns: the single-row fetch failed
(silent return, tasker.go:162-164); a cancel value matched, so the bound
context was cancelled (tasker.go:167-171); or the end-of-iteration select
saw the bound context already done (tasker.go:175-179). -/
inductive SupExit where
  | fetchFailed (iter : Nat)
  | cancelled (iter : Nat)
  | ctxDone (iter : Nat)
  deriving DecidableEq, Repr

/-- Go `watchForCancel` (tasker.go:159-181).  Each iteration: fetch the row
fresh by `row.ID` (the snapshot's fields are never consulted) — a fetch
error returns silently; compare the fetched row's field string with each
cancel value — a match cancels the bound context and returns; sleep,
then return if the select sees the bound context done, else loop.
`store n` is the client at iteration `n`, `doneAtCheck n` whether the
bound context's Done channel is closed when iteration `n` reaches its
select; `fuel` bounds the unrolling (`none` exit = still looping). -/
def watchForCancelRun (store : Nat → AirtableClient) (doneAtCheck : Nat → Bool)
    (w : Watch) (row : Row) : Nat → Nat → List SupEvent × Option SupExit
  | _, 0 => ([], none)
  | iter, fuel + 1 =>
    match GetRow (store iter) w.tableName row.ID with
    | .error _ => ([.fetchRow iter], some (.fetchFailed iter))
    | .ok rowUpdated =>
      if w.cancelValues.contains (rowUpdated.GetFieldString w.fieldName) then
        ([.fetchRow iter, .cancelCall iter], some (.cancelled iter))
      else if doneAtCheck iter then
        ([.fetchRow iter], some (.ctxDone iter))
      else
        let tail := watchForCancelRun store doneAtCheck w row (iter + 1) fuel
        (.fetchRow iter :: tail.1, tail.2)

/-- The registry positions, in trace order, of the callback invocations a
trace records for one particular row of one particular table. -/
def startIdxs (table : String) (rowPos : Nat) : List TraceEvent → List Nat
  | [] => []
  | .callStart t p i :: rest =>
    if t = table ∧ p = rowPos then i :: startIdxs table rowPos rest
    else startIdxs table rowPos rest
  | _ :: rest => startIdxs table rowPos rest

/-- Characterization following the spec's words: the registry positions,
in registration order, of exactly those watches whose table name equals
the row's table and whose trigger value equals the row's field string.
`idx` is the registry position of the first watch in the list. -/
def matchingIdxs (table : String) (row : Row) : Nat → List Watch → List Nat
  | _, [] => []
  | idx, w :: rest =>
    (if watchMatches w table row then [idx] else []) ++
      matchingIdxs table row (idx + 1) rest

/-! ## Theorems -/

/-- C6: for every row and field name, `GetFieldString` returns the empty
string when the field is absent; exactly "true" or "false" when the value
is a boolean; the value's decimal textual form (Go's `%f` rendering) when
the value is numeric; the value itself unchanged when it is a string; and
the empty string for any other value type.  The function is total, so no
error is ever raised. -/
theorem claim6_getFieldString (r : Row) (fieldName : String) :
    (r.GetField fieldName = none → r.GetFieldString fieldName = "") ∧
    (∀ b, r.GetField fieldName = some (.boolean b) →
      (r.GetFieldString fieldName = if b then "true" else "false") ∧
      (r.GetFieldString fieldName = "true" ∨ r.GetFieldString fieldName = "false")) ∧
    (∀ micros, r.GetField fieldName = some (.num micros) →
      r.GetFieldString fieldName = formatFloat micros) ∧
    (∀ s, r.GetField fieldName = some (.str s) → r.GetFieldString fieldName = s) ∧
    (r.GetField fieldName = some .other → r.GetFieldString fieldName = "") := by
  refine ⟨?_, ?_, ?_, ?_, ?_⟩
  · intro h; simp [Row.GetFieldString, h]
  · intro b h
    refine ⟨by simp [Row.GetFieldString, h], ?_⟩
    cases b
    · right; simp [Row.GetFieldString, h]
    · left; simp [Row.GetFieldString, h]
  · intro micros h; simp [Row.GetFieldString, h]
  · intro s h; simp [Row.GetFieldString, h]
  · intro h; simp [Row.GetFieldString, h]

/-- Witness for C6 at a concrete row holding a boolean field. -/
theorem claim6_getFieldString_witness :
    (Row.mk "rec1" (.map [("Done", .boolean true)])).GetFieldString "Done" = "true" ∨
    (Row.mk "rec1" (.map [("Done", .boolean true)])).GetFieldString "Done" = "false" :=
  ((claim6_getFieldString (Row.mk "rec1" (.map [("Done", .boolean true)])) "Done").2.1
    true (by decide)).2

/-- C7: for every row and field name, `GetFieldTime` parses the field's
string form with the fixed layout "2006-01-02T15:04:05.000Z" and returns
`DefaultBlankTime` — the sentinel built from year 1 and zero month/day —
when the string form is empty or parsing fails, and the parsed timestamp
when parsing succeeds.  The function is total, so it never fails. -/
theorem claim7_getFieldTime (r : Row) (fieldName : String) :
    DefaultBlankTime.year = 1 ∧ DefaultBlankTime.month = 0 ∧ DefaultBlankTime.day = 0 ∧
    (r.GetFieldString fieldName = "" → r.GetFieldTime fieldName = DefaultBlankTime) ∧
    (parseAirtableTime (r.GetFieldString fieldName) = none →
      r.GetFieldTime fieldName = DefaultBlankTime) ∧
    (∀ t, parseAirtableTime (r.GetFieldString fieldName) = some t →
      r.GetFieldTime fieldName = t) := by
  refine ⟨rfl, rfl, rfl, ?_, ?_, ?_⟩
  · intro h; simp [Row.GetFieldTime, h]
  · intro h
    by_cases hs : r.GetFieldString fieldName = ""
    · simp [Row.GetFieldTime, hs]
    · simp [Row.GetFieldTime, hs, h]
  · intro t h
    by_cases hs : r.GetFieldString fieldName = ""
    · rw [hs] at h; exact absurd h (by simp [parseAirtableTime])
    · simp [Row.GetFieldTime, hs, h]

/-- Witness for C7 at a concrete row whose field parses successfully. -/
theorem claim7_getFieldTime_witness :
    (Row.mk "rec1" (.map [("When", .str "2021-02-03T04:05:06.789Z")])).GetFieldTime "When" =
      ⟨2021, 2, 3, 4, 5, 6, 789000000⟩ :=
  (claim7_getFieldTime (Row.mk "rec1" (.map [("When", .str "2021-02-03T04:05:06.789Z")]))
    "When").2.2.2.2.2 ⟨2021, 2, 3, 4, 5, 6, 789000000⟩ (by decide)

/-- The row scan of `GetConfig` returns the "Value" string of the first
row, in listing order, whose "Key" string equals the key. -/
theorem findConfig_eq_find (key : String) :
    ∀ rows : List Row, findConfig key rows =
      match rows.find? (fun row => row.GetFieldString "Key" == key) with
      | some row => .ok (row.GetFieldString "Value")
      | none => .error "config key not found"
  | [] => rfl
  | row :: rest => by
    by_cases h : row.GetFieldString "Key" = key
    · simp [findConfig, List.find?_cons, h]
    · simp [findConfig, List.find?_cons, h, findConfig_eq_find key rest]

/-- C8: `GetConfig` propagates a failure of listing the config table; on
a successful listing it returns the "Value" string of the first row, in
listing order, whose "Key" string equals the key, and a "config key not
found" failure when no row's key matches. -/
theorem claim8_getConfig (c : AirtableClient) (configTableName key : String) :
    (∀ e, c.ListRecords configTableName = .error e →
      GetConfig c configTableName key = .error e) ∧
    (∀ rows, c.ListRecords configTableName = .ok rows →
      GetConfig c configTableName key =
        match rows.find? (fun row => row.GetFieldString "Key" == key) with
        | some row => .ok (row.GetFieldString "Value")
        | none => .error "config key not found") := by
  constructor
  · intro e h; simp [GetConfig, GetRows, h]
  · intro rows h
    simp [GetConfig, GetRows, h]
    exact findConfig_eq_find key rows

/-- Witness for C8 at a concrete client whose config table holds
TestKey/TestValue. -/
theorem claim8_getConfig_witness :
    GetConfig
      ⟨fun _ => .ok [Row.mk "r1" (.map [("Key", .str "TestKey"), ("Value", .str "TestValue")])],
       fun _ _ => .error "unused"⟩
      "Config" "TestKey" = .ok "TestValue" := by
  have h := (claim8_getConfig
      ⟨fun _ => .ok [Row.mk "r1" (.map [("Key", .str "TestKey"), ("Value", .str "TestValue")])],
       fun _ _ => .error "unused"⟩
      "Config" "TestKey").2
      [Row.mk "r1" (.map [("Key", .str "TestKey"), ("Value", .str "TestValue")])] rfl
  simpa using h

/-- The function `startIdxs` distributes over concatenation of traces. -/
theorem startIdxs_append (table : String) (rowPos : Nat) :
    ∀ l1 l2 : List TraceEvent,
      startIdxs table rowPos (l1 ++ l2) =
        startIdxs table rowPos l1 ++ startIdxs table rowPos l2 := by
  intro l1 l2
  induction l1 with
  | nil => simp [startIdxs]
  | cons e rest ih =>
    cases e with
    | callStart t p i =>
      by_cases h : t = table ∧ p = rowPos <;> simp [startIdxs, h, ih]
    | fetchTable t => simp [startIdxs, ih]
    | callEnd t p i => simp [startIdxs, ih]
    | ctxCancel t p i => simp [startIdxs, ih]

/-- The invocations recorded by the watcher loop for its own row are
exactly the spec-side matching positions. -/
theorem startIdxs_rowWatchersAux (table : String) (rowPos : Nat) (row : Row) :
    ∀ (ws : List Watch) (idx : Nat),
      startIdxs table rowPos (rowWatchersAux table rowPos row idx ws) =
        matchingIdxs table row idx ws := by
  intro ws
  induction ws with
  | nil => intro idx; simp [rowWatchersAux, matchingIdxs, startIdxs]
  | cons w rest ih =>
    intro idx
    by_cases ht : w.tableName = table
    · by_cases hf : row.GetFieldString w.fieldName = w.triggerValue
      · simp [rowWatchersAux, matchingIdxs, ht, hf, dispatchChunk, startIdxs_append,
              startIdxs, watchMatches, ih]
      · simp [rowWatchersAux, matchingIdxs, ht, hf, startIdxs, watchMatches, ih]
    · simp [rowWatchersAux, matchingIdxs, ht, startIdxs, watchMatches, ih]

/-- The watcher loop for a different (table, row position) records no
invocation for the queried one. -/
theorem startIdxs_rowWatchersAux_ne (table : String) (rowPos : Nat)
    (table2 : String) (rowPos2 : Nat) (row : Row)
    (hne : ¬(table2 = table ∧ rowPos2 = rowPos)) :
    ∀ (ws : List Watch) (idx : Nat),
      startIdxs table rowPos (rowWatchersAux table2 rowPos2 row idx ws) = [] := by
  intro ws
  induction ws with
  | nil => intro idx; simp [rowWatchersAux, startIdxs]
  | cons w rest ih =>
    intro idx
    by_cases ht : w.tableName = table2
    · by_cases hf : row.GetFieldString w.fieldName = w.triggerValue
      · simp [rowWatchersAux, ht, hf, dispatchChunk, startIdxs_append, startIdxs, hne, ih]
      · simp [rowWatchersAux, ht, hf, startIdxs, ih]
    · simp [rowWatchersAux, ht, startIdxs, ih]

/-- Every element of `matchingIdxs` starting at `idx` is at least `idx`. -/
theorem matchingIdxs_ge (table : String) (row : Row) :
    ∀ (ws : List Watch) (idx j : Nat), j ∈ matchingIdxs table row idx ws → idx ≤ j := by
  intro ws
  induction ws with
  | nil => intro idx j h; simp [matchingIdxs] at h
  | cons w rest ih =>
    intro idx j h
    simp only [matchingIdxs, List.mem_append] at h
    rcases h with h | h
    · by_cases hm : watchMatches w table row
      · simp [hm] at h; omega
      · simp [hm] at h
    · have := ih (idx + 1) j h; omega

/-- The spec-side matching positions are strictly increasing, hence each
position occurs at most once and in registration order. -/
theorem matchingIdxs_pairwise (table : String) (row : Row) :
    ∀ (ws : List Watch) (idx : Nat),
      (matchingIdxs table row idx ws).Pairwise (· < ·) := by
  intro ws
  induction ws with
  | nil => intro idx; simp [matchingIdxs]
  | cons w rest ih =>
    intro idx
    by_cases hm : watchMatches w table row
    · simp only [matchingIdxs, hm, if_pos, List.singleton_append]
      refine List.Pairwise.cons ?_ (ih (idx + 1))
      intro j hj
      have := matchingIdxs_ge table row rest (idx + 1) j hj
      omega
    · simpa [matchingIdxs, hm] using ih (idx + 1)

/-- A registry position belongs to the spec-side matching positions iff
the watch registered there matches the row. -/
theorem mem_matchingIdxs (table : String) (row : Row) :
    ∀ (ws : List Watch) (idx k : Nat) (w : Watch), ws[k]? = some w →
      ((idx + k) ∈ matchingIdxs table row idx ws ↔ watchMatches w table row = true) := by
  intro ws
  induction ws with
  | nil => intro idx k w h; simp at h
  | cons w0 rest ih =>
    intro idx k w h
    cases k with
    | zero =>
      have hw : w0 = w := by simpa using h
      constructor
      · intro hmem
        simp only [matchingIdxs, List.mem_append] at hmem
        rcases hmem with hmem | hmem
        · by_cases hm : watchMatches w0 table row
          · rwa [← hw]
          · simp [hm] at hmem
        · have := matchingIdxs_ge table row rest (idx + 1) _ hmem
          omega
      · intro hm
        have hm0 : watchMatches w0 table row = true := by rw [hw]; exact hm
        simp [matchingIdxs, hm0]
    | succ k2 =>
      simp only [List.getElem?_cons_succ] at h
      have hrec := ih (idx + 1) k2 w h
      have harith : idx + (k2 + 1) = (idx + 1) + k2 := by omega
      rw [harith]
      constructor
      · intro hmem
        simp only [matchingIdxs, List.mem_append] at hmem
        rcases hmem with hmem | hmem
        · by_cases hm : watchMatches w0 table row
          · simp [hm] at hmem; omega
          · simp [hm] at hmem
        · exact hrec.mp hmem
      · intro hm
        simp only [matchingIdxs, List.mem_append]
        exact Or.inr (hrec.mpr hm)

/-- The row loop of a different table records no invocation for the
queried table. -/
theorem startIdxs_tableRowsAux_ne_table (table : String) (rowPos : Nat)
    (table2 : String) (ws : List Watch) (hne : table2 ≠ table) :
    ∀ (rows : List Row) (pos : Nat),
      startIdxs table rowPos (tableRowsAux table2 ws pos rows) = [] := by
  intro rows
  induction rows with
  | nil => intro pos; simp [tableRowsAux, startIdxs]
  | cons r rest ih =>
    intro pos
    simp [tableRowsAux, startIdxs_append, ih,
      startIdxs_rowWatchersAux_ne table rowPos table2 pos r (by tauto)]

/-- Rows positioned past the queried position record no invocation for
it. -/
theorem startIdxs_tableRowsAux_lt (table : String) (rowPos : Nat) (ws : List Watch) :
    ∀ (rows : List Row) (pos : Nat), rowPos < pos →
      startIdxs table rowPos (tableRowsAux table ws pos rows) = [] := by
  intro rows
  induction rows with
  | nil => intro pos _; simp [tableRowsAux, startIdxs]
  | cons r rest ih =>
    intro pos hlt
    have h1 : startIdxs table rowPos (rowWatchersAux table pos r 0 ws) = [] :=
      startIdxs_rowWatchersAux_ne table rowPos table pos r
        (fun hc => absurd hc.2 (by omega)) ws 0
    simp [tableRowsAux, startIdxs_append, ih (pos + 1) (by omega), h1]

/-- The row loop records, for the row at position `pos + rowPos`, exactly
the spec-side matching positions of that row. -/
theorem startIdxs_tableRowsAux (table : String) (ws : List Watch) :
    ∀ (rows : List Row) (pos rowPos : Nat) (row : Row), rows[rowPos]? = some row →
      startIdxs table (pos + rowPos) (tableRowsAux table ws pos rows) =
        matchingIdxs table row 0 ws := by
  intro rows
  induction rows with
  | nil => intro pos rowPos row h; simp at h
  | cons r rest ih =>
    intro pos rowPos row h
    cases rowPos with
    | zero =>
      have hr : r = row := by simpa using h
      subst hr
      have h1 : startIdxs table pos (rowWatchersAux table pos r 0 ws) =
          matchingIdxs table r 0 ws := startIdxs_rowWatchersAux table pos r ws 0
      have h2 : startIdxs table pos (tableRowsAux table ws (pos + 1) rest) = [] :=
        startIdxs_tableRowsAux_lt table pos ws rest (pos + 1) (by omega)
      simp only [Nat.add_zero]
      simp [tableRowsAux, startIdxs_append, h1, h2]
    | succ k =>
      simp only [List.getElem?_cons_succ] at h
      have harith : pos + (k + 1) = (pos + 1) + k := by omega
      rw [harith]
      simp [tableRowsAux, startIdxs_append, ih (pos + 1) k row h,
        startIdxs_rowWatchersAux_ne (table) ((pos + 1) + k) table pos r (by
          intro hc; exact absurd hc.2 (by omega))]

/-- Tables absent from the scan list record no invocation for the
queried table. -/
theorem startIdxs_runTables_not_mem (table : String) (rowPos : Nat)
    (c : AirtableClient) (ws : List Watch) :
    ∀ tables : List String, table ∉ tables →
      startIdxs table rowPos (runTables c ws tables).1 = [] := by
  intro tables
  induction tables with
  | nil => intro _; simp [runTables, startIdxs]
  | cons t rest ih =>
    intro hmem
    have hne : t ≠ table := fun hc => hmem (by simp [hc])
    have hrest : table ∉ rest := fun hc => hmem (by simp [hc])
    match hg : GetRows c t with
    | .error e => simp [runTables, hg, startIdxs]
    | .ok rows =>
      simp [runTables, hg, startIdxs, startIdxs_append, ih hrest,
        startIdxs_tableRowsAux_ne_table table rowPos t ws hne rows 0]

/-- On a clean cycle over a duplicate-free table list, the invocations
recorded for a fetched row are exactly its spec-side matching positions. -/
theorem startIdxs_runTables (table : String) (rowPos : Nat)
    (c : AirtableClient) (ws : List Watch) (rows : List Row) (row : Row)
    (henv : GetRows c table = .ok rows) (hrow : rows[rowPos]? = some row) :
    ∀ tables : List String, tables.Nodup → table ∈ tables →
      (runTables c ws tables).2 = none →
      startIdxs table rowPos (runTables c ws tables).1 =
        matchingIdxs table row 0 ws := by
  intro tables
  induction tables with
  | nil => intro _ hmem _; simp at hmem
  | cons t rest ih =>
    intro hnodup hmem hclean
    match hg : GetRows c t with
    | .error e => rw [runTables, hg] at hclean; simp at hclean
    | .ok rows2 =>
      rw [runTables, hg] at hclean ⊢
      simp only at hclean
      by_cases heq : t = table
      · subst heq
        have hrows : rows2 = rows := by
          rw [henv] at hg; exact (Except.ok.inj hg).symm
        have hrow2 : rows2[rowPos]? = some row := by rw [hrows]; exact hrow
        have hnotmem : t ∉ rest := (List.nodup_cons.mp hnodup).1
        have h0 : startIdxs t rowPos (tableRowsAux t ws 0 rows2) =
            matchingIdxs t row 0 ws := by
          have := startIdxs_tableRowsAux t ws rows2 0 rowPos row hrow2
          simpa using this
        simp [startIdxs, startIdxs_append, h0,
          startIdxs_runTables_not_mem t rowPos c ws rest hnotmem]
      · have hmem2 : table ∈ rest := by
          rcases List.mem_cons.mp hmem with h | h
          · exact absurd h.symm heq
          · exact h
        have hrest := ih (List.nodup_cons.mp hnodup).2 hmem2 hclean
        simp [startIdxs, startIdxs_append, hrest,
          startIdxs_tableRowsAux_ne_table table rowPos t ws heq rows2 0]

/-- The function `insertTable` preserves freedom from duplicates. -/
theorem insertTable_nodup (tables : List String) (t : String)
    (h : tables.Nodup) : (insertTable tables t).Nodup := by
  unfold insertTable
  by_cases hmem : t ∈ tables
  · simpa [hmem]
  · simp [hmem, List.nodup_append, h]

/-- The scan list built by `Start` holds each table once. -/
theorem scanTables_nodup (ws : List Watch) : (scanTables ws).Nodup := by
  suffices h : ∀ (ws : List Watch) (acc : List String), acc.Nodup →
      (ws.foldl (fun acc w => insertTable acc w.tableName) acc).Nodup by
    exact h ws [] List.nodup_nil
  intro ws
  induction ws with
  | nil => intro acc h; simpa
  | cons w rest ih =>
    intro acc h
    exact ih (insertTable acc w.tableName) (insertTable_nodup acc w.tableName h)

/-- C1: during a poll cycle that completes its scan, for every fetched
row and every registered watch, the watch's callback is invoked exactly
once iff the watch's table name equals the row's table and the row's
field string equals the watch's trigger value (count 1 on a match, count
0 — never invoked — otherwise, even if other watches match the row); and
the invocations for a row happen in registration order, since the
recorded positions equal `matchingIdxs`, which is strictly increasing. -/
theorem claim1_dispatch (c : AirtableClient) (ws : List Watch) (table : String)
    (rows : List Row) (rowPos watchIdx : Nat) (w : Watch) (row : Row)
    (hclean : (pollCycle c ws).2 = none)
    (henv : GetRows c table = .ok rows)
    (htab : table ∈ scanTables ws)
    (hrow : rows[rowPos]? = some row)
    (hw : ws[watchIdx]? = some w) :
    startIdxs table rowPos (pollCycle c ws).1 = matchingIdxs table row 0 ws ∧
    (matchingIdxs table row 0 ws).Pairwise (· < ·) ∧
    (watchIdx ∈ matchingIdxs table row 0 ws ↔ watchMatches w table row = true) ∧
    (startIdxs table rowPos (pollCycle c ws).1).count watchIdx =
      (if watchMatches w table row then 1 else 0) := by
  have h1 : startIdxs table rowPos (pollCycle c ws).1 = matchingIdxs table row 0 ws :=
    startIdxs_runTables table rowPos c ws rows row henv hrow (scanTables ws)
      (scanTables_nodup ws) htab hclean
  have h2 := matchingIdxs_pairwise table row ws 0
  have h3 := mem_matchingIdxs table row ws 0 watchIdx w hw
  rw [Nat.zero_add] at h3
  refine ⟨h1, h2, h3, ?_⟩
  rw [h1]
  by_cases hm : watchMatches w table row
  · rw [if_pos hm]
    exact List.count_eq_one_of_mem h2.nodup (h3.mpr hm)
  · rw [if_neg hm]
    exact List.count_eq_zero_of_not_mem (fun hc => hm (h3.mp hc))

/-- Witness for C1: two watches on the same table and field with
different trigger values; a row matching only the second is dispatched
exactly once, for the second watch. -/
theorem claim1_dispatch_witness :
    (startIdxs "Tasks" 0
      (pollCycle
        ⟨fun _ => .ok [Row.mk "r1" (.map [("State", .str "Go")])], fun _ _ => .error "unused"⟩
        [⟨"Tasks", "State", "ToDo", []⟩, ⟨"Tasks", "State", "Go", []⟩]).1).count 1 = 1 := by
  have h := (claim1_dispatch
      ⟨fun _ => .ok [Row.mk "r1" (.map [("State", .str "Go")])], fun _ _ => .error "unused"⟩
      [⟨"Tasks", "State", "ToDo", []⟩, ⟨"Tasks", "State", "Go", []⟩]
      "Tasks" [Row.mk "r1" (.map [("State", .str "Go")])] 0 1
      ⟨"Tasks", "State", "Go", []⟩ (Row.mk "r1" (.map [("State", .str "Go")]))
      (by decide) rfl (by decide) rfl rfl).2.2.2
  exact h.trans (by decide)

/-- The fetch error a cycle ends with is the error of the first failing
table in scan order, and `none` if every fetch succeeds: later tables
are not consulted (no retry), earlier successful tables are not
reported. -/
theorem runTables_snd (c : AirtableClient) (ws : List Watch) :
    ∀ tables : List String,
      (runTables c ws tables).2 = tables.findSome?
        (fun t => match GetRows c t with | .error e => some e | .ok _ => none) := by
  intro tables
  induction tables with
  | nil => rfl
  | cons t rest ih =>
    match hg : GetRows c t with
    | .error e => simp [runTables, hg, List.findSome?_cons]
    | .ok rows => simp [runTables, hg, List.findSome?_cons, ih]

/-- If the overall run is still looping or has returned, any returned
value is either a fetch error of some cycle or the context error seen at
some end-of-cycle check. -/
theorem startLoop_sound (store : Nat → AirtableClient) (ctxDone : Nat → Bool)
    (ws : List Watch) :
    ∀ (fuel start : Nat) (r : StartResult),
      startLoop store ctxDone ws start fuel = some r →
      (∃ e n, (pollCycle (store n) ws).2 = some e ∧ r = .fetchError e) ∨
      (∃ n, ctxDone n = true ∧ r = .ctxErr n) := by
  intro fuel
  induction fuel with
  | zero => intro start r h; simp [startLoop] at h
  | succ f ih =>
    intro start r h
    rw [startLoop] at h
    cases hc : (pollCycle (store start) ws).2 with
    | some e =>
      rw [hc] at h
      simp only [Option.some_inj] at h
      exact Or.inl ⟨e, start, hc, h.symm⟩
    | none =>
      rw [hc] at h
      by_cases hd : ctxDone start
      · rw [if_pos hd] at h
        simp only [Option.some_inj] at h
        exact Or.inr ⟨start, hd, h.symm⟩
      · rw [if_neg hd] at h
        exact ih (start + 1) r h

/-- A fetch failure at the first cycle not previously terminated makes
the run return that fetch error at once. -/
theorem startLoop_fetchError (store : Nat → AirtableClient) (ctxDone : Nat → Bool)
    (ws : List Watch) :
    ∀ (k fuel start : Nat) (e : String), k < fuel →
      (∀ m, m < k → (pollCycle (store (start + m)) ws).2 = none ∧
        ctxDone (start + m) = false) →
      (pollCycle (store (start + k)) ws).2 = some e →
      startLoop store ctxDone ws start fuel = some (.fetchError e) := by
  intro k
  induction k with
  | zero =>
    intro fuel start e hf hpre hcur
    cases fuel with
    | zero => omega
    | succ f =>
      rw [startLoop]
      rw [Nat.add_zero] at hcur
      rw [hcur]
  | succ k2 ih =>
    intro fuel start e hf hpre hcur
    cases fuel with
    | zero => omega
    | succ f =>
      rw [startLoop]
      have h0 := hpre 0 (by omega)
      rw [Nat.add_zero] at h0
      rw [h0.1, h0.2]
      simp only [Bool.false_eq_true, if_false]
      refine ih f (start + 1) e (by omega) ?_ ?_
      · intro m hm
        have := hpre (m + 1) (by omega)
        rwa [show start + (m + 1) = (start + 1) + m by omega] at this
      · rwa [show (start + 1) + k2 = start + (k2 + 1) by omega]

/-- When every cycle fetches cleanly and the context is first seen done
at the check after cycle `start + k`, the run returns the context error
there. -/
theorem startLoop_ctxErr (store : Nat → AirtableClient) (ctxDone : Nat → Bool)
    (ws : List Watch) :
    ∀ (k fuel start : Nat), k < fuel →
      (∀ m, m ≤ k → (pollCycle (store (start + m)) ws).2 = none) →
      (∀ m, m < k → ctxDone (start + m) = false) →
      ctxDone (start + k) = true →
      startLoop store ctxDone ws start fuel = some (.ctxErr (start + k)) := by
  intro k
  induction k with
  | zero =>
    intro fuel start hf hclean hdone hcur
    cases fuel with
    | zero => omega
    | succ f =>
      rw [startLoop]
      have h0 := hclean 0 (by omega)
      rw [Nat.add_zero] at h0 hcur
      rw [h0, hcur]
      simp
  | succ k2 ih =>
    intro fuel start hf hclean hdone hcur
    cases fuel with
    | zero => omega
    | succ f =>
      rw [startLoop]
      have h0 := hclean 0 (by omega)
      have hd0 := hdone 0 (by omega)
      rw [Nat.add_zero] at h0 hd0
      rw [h0, hd0]
      simp only [Bool.false_eq_true, if_false]
      have := ih f (start + 1) (by omega)
        (fun m hm => by
          have := hclean (m + 1) (by omega)
          rwa [show start + (m + 1) = (start + 1) + m by omega] at this)
        (fun m hm => by
          have := hdone (m + 1) (by omega)
          rwa [show start + (m + 1) = (start + 1) + m by omega] at this)
        (by rwa [show (start + 1) + k2 = start + (k2 + 1) by omega])
      rwa [show (start + 1) + k2 = start + (k2 + 1) by omega] at this

/-- C2: `Start` returns exactly one of two outcomes.  Any returned value
is either a fetch error of some watched table at some cycle or the
context's error observed at an end-of-cycle check; a cycle's fetch error
is the first failing watched table's error in scan order; a fetch
failure at a cycle no earlier outcome preceded is returned immediately;
and with all fetches clean, the run returns the context error at the
first check that sees the context done. -/
theorem claim2_start_outcomes (fuel : Nat) (store : Nat → AirtableClient)
    (ctxDone : Nat → Bool) (ws : List Watch) :
    (∀ c, (pollCycle c ws).2 = (scanTables ws).findSome?
      (fun t => match GetRows c t with | .error e => some e | .ok _ => none)) ∧
    (∀ r, Start fuel store ctxDone ws = some r →
      (∃ e n t, t ∈ scanTables ws ∧ GetRows (store n) t = .error e ∧ r = .fetchError e) ∨
      (∃ n, ctxDone n = true ∧ r = .ctxErr n)) ∧
    (∀ n e, n < fuel →
      (∀ m, m < n → (pollCycle (store m) ws).2 = none ∧ ctxDone m = false) →
      (pollCycle (store n) ws).2 = some e →
      Start fuel store ctxDone ws = some (.fetchError e)) ∧
    (∀ n, n < fuel →
      (∀ m, m ≤ n → (pollCycle (store m) ws).2 = none) →
      (∀ m, m < n → ctxDone m = false) →
      ctxDone n = true →
      Start fuel store ctxDone ws = some (.ctxErr n)) := by
  refine ⟨fun c => runTables_snd c ws (scanTables ws), ?_, ?_, ?_⟩
  · intro r h
    rcases startLoop_sound store ctxDone ws fuel 0 r h with ⟨e, n, hc, hr⟩ | hctx
    · left
      have hc2 : (runTables (store n) ws (scanTables ws)).2 = some e := hc
      rw [runTables_snd (store n) ws (scanTables ws)] at hc2
      rcases List.exists_of_findSome?_eq_some hc2 with ⟨t, htmem, hteq⟩
      refine ⟨e, n, t, htmem, ?_, hr⟩
      cases hg : GetRows (store n) t with
      | error e2 =>
        rw [hg] at hteq
        have he : e2 = e := by simpa using hteq
        rw [he]
      | ok rows => rw [hg] at hteq; simp at hteq
    · exact Or.inr hctx
  · intro n e hf hpre hcur
    have := startLoop_fetchError store ctxDone ws n fuel 0 e hf
      (fun m hm => by simpa using hpre m hm) (by simpa using hcur)
    exact this
  · intro n hf hclean hdone hcur
    have := startLoop_ctxErr store ctxDone ws n fuel 0 hf
      (fun m hm => by simpa using hclean m hm)
      (fun m hm => by simpa using hdone m hm) (by simpa using hcur)
    simpa using this

/-- Witness for C2: a single watched table whose listing fails makes
`Start` return that fetch error on the first cycle. -/
theorem claim2_start_outcomes_witness :
    Start 1 (fun _ => ⟨fun _ => .error "boom", fun _ _ => .error "boom"⟩)
      (fun _ => false) [⟨"Tasks", "State", "ToDo", []⟩] =
      some (.fetchError "boom") :=
  (claim2_start_outcomes 1 (fun _ => ⟨fun _ => .error "boom", fun _ _ => .error "boom"⟩)
    (fun _ => false) [⟨"Tasks", "State", "ToDo", []⟩]).2.2.1 0 "boom"
    (by omega) (fun m hm => absurd hm (by omega)) (by decide)

/-- With an empty watch registry, the loop body is inert: the run of
`startLoop` never consults the store. -/
theorem startLoop_empty_indep (store store2 : Nat → AirtableClient)
    (ctxDone : Nat → Bool) :
    ∀ fuel start : Nat,
      startLoop store ctxDone [] start fuel = startLoop store2 ctxDone [] start fuel := by
  intro fuel
  induction fuel with
  | zero => intro start; rfl
  | succ f ih =>
    intro start
    rw [startLoop, startLoop]
    have h1 : (pollCycle (store start) []).2 = none := rfl
    have h2 : (pollCycle (store2 start) []).2 = none := rfl
    rw [h1, h2]
    by_cases hd : ctxDone start
    · rw [if_pos hd, if_pos hd]
    · rw [if_neg hd, if_neg hd]
      exact ih (start + 1)

/-- C10: with an empty watch registry the scan list is empty, so every
cycle performs no row-listing fetch and records no invocation (the cycle
is the empty trace with no error, whatever the client), the run's result
never depends on the store, and the only value `Start` can return is the
context's error from an end-of-cycle check. -/
theorem claim10_empty_registry (fuel : Nat) (store store2 : Nat → AirtableClient)
    (ctxDone : Nat → Bool) :
    scanTables [] = [] ∧
    (∀ c, pollCycle c [] = ([], none)) ∧
    Start fuel store ctxDone [] = Start fuel store2 ctxDone [] ∧
    (∀ r, Start fuel store ctxDone [] = some r →
      ∃ n, ctxDone n = true ∧ r = .ctxErr n) := by
  refine ⟨rfl, fun c => rfl, startLoop_empty_indep store store2 ctxDone fuel 0, ?_⟩
  intro r h
  rcases startLoop_sound store ctxDone [] fuel 0 r h with ⟨e, n, hc, _⟩ | hctx
  · have : (pollCycle (store n) []).2 = none := rfl
    rw [this] at hc
    exact absurd hc (by simp)
  · exact hctx

/-- Witness for C10: with no watches and a store that always fails, the
run still returns the context error seen at the check after cycle 1. -/
theorem claim10_empty_registry_witness :
    ∃ n, (fun k => decide (1 ≤ k)) n = true ∧ StartResult.ctxErr 1 = .ctxErr n :=
  (claim10_empty_registry 2 (fun _ => ⟨fun _ => .error "boom", fun _ _ => .error "boom"⟩)
    (fun _ => ⟨fun _ => .error "boom", fun _ _ => .error "boom"⟩)
    (fun k => decide (1 ≤ k))).2.2.2 (.ctxErr 1) (by decide)

/-- A poll-cycle trace is a sequence of atomic blocks: table fetches and
complete dispatches. -/
inductive Blocky : List TraceEvent → Prop where
  | nil : Blocky []
  | fetch (t : String) {l : List TraceEvent} : Blocky l → Blocky (.fetchTable t :: l)
  | chunk (t : String) (p i : Nat) {l : List TraceEvent} :
      Blocky l → Blocky (dispatchChunk t p i ++ l)

/-- Blocks concatenate. -/
theorem Blocky.append {l1 l2 : List TraceEvent} (h1 : Blocky l1) (h2 : Blocky l2) :
    Blocky (l1 ++ l2) := by
  induction h1 with
  | nil => simpa
  | fetch t hl ih => simpa using Blocky.fetch t ih
  | chunk t p i hl ih => simpa [dispatchChunk] using Blocky.chunk t p i ih

/-- The watcher loop emits blocks. -/
theorem blocky_rowWatchersAux (table : String) (rowPos : Nat) (row : Row) :
    ∀ (ws : List Watch) (idx : Nat), Blocky (rowWatchersAux table rowPos row idx ws) := by
  intro ws
  induction ws with
  | nil => intro idx; exact Blocky.nil
  | cons w rest ih =>
    intro idx
    by_cases ht : w.tableName = table
    · by_cases hf : row.GetFieldString w.fieldName = w.triggerValue
      · simpa [rowWatchersAux, ht, hf] using Blocky.chunk table rowPos idx (ih (idx + 1))
      · simpa [rowWatchersAux, ht, hf] using ih (idx + 1)
    · simpa [rowWatchersAux, ht] using ih (idx + 1)

/-- The row loop emits blocks. -/
theorem blocky_tableRowsAux (table : String) (ws : List Watch) :
    ∀ (rows : List Row) (pos : Nat), Blocky (tableRowsAux table ws pos rows) := by
  intro rows
  induction rows with
  | nil => intro pos; exact Blocky.nil
  | cons r rest ih =>
    intro pos
    exact (blocky_rowWatchersAux table pos r ws 0).append (ih (pos + 1))

/-- The table loop emits blocks. -/
theorem blocky_runTables (c : AirtableClient) (ws : List Watch) :
    ∀ tables : List String, Blocky (runTables c ws tables).1 := by
  intro tables
  induction tables with
  | nil => exact Blocky.nil
  | cons t rest ih =>
    match hg : GetRows c t with
    | .error e => simpa [runTables, hg] using Blocky.fetch t Blocky.nil
    | .ok rows =>
      simpa [runTables, hg] using
        Blocky.fetch t ((blocky_tableRowsAux t ws rows 0).append ih)

/-- Every poll-cycle trace is made of blocks. -/
theorem blocky_pollCycle (c : AirtableClient) (ws : List Watch) :
    Blocky (pollCycle c ws).1 :=
  blocky_runTables c ws (scanTables ws)

/-- Checker that every recorded callback invocation is immediately
followed by its own return: nothing — no fetch, no other row or watch —
is evaluated between a callback's start and its end. -/
def syncOK : List TraceEvent → Bool
  | [] => true
  | .callStart t p i :: .callEnd t2 p2 i2 :: rest =>
    t == t2 && p == p2 && i == i2 && syncOK rest
  | .callStart _ _ _ :: _ => false
  | _ :: rest => syncOK rest

/-- Checker that every recorded callback return is immediately followed
by the cancellation of that invocation's context: the context is
cancelled before the next watch or row is evaluated. -/
def cancelOK : List TraceEvent → Bool
  | [] => true
  | .callEnd t p i :: .ctxCancel t2 p2 i2 :: rest =>
    t == t2 && p == p2 && i == i2 && cancelOK rest
  | .callEnd _ _ _ :: _ => false
  | _ :: rest => cancelOK rest

def isCallStart : TraceEvent → Bool
  | .callStart _ _ _ => true
  | _ => false

def isCallEnd : TraceEvent → Bool
  | .callEnd _ _ _ => true
  | _ => false

/-- At every moment of a trace (that is, in each of its prefixes) the
number of callbacks that have started exceeds the number that have
returned by at most one: at most one invocation is ever active. -/
def PrefBound (l : List TraceEvent) : Prop :=
  ∀ n : Nat, (l.take n).countP isCallStart ≤ (l.take n).countP isCallEnd + 1

theorem syncOK_of_blocky : ∀ {l : List TraceEvent}, Blocky l → syncOK l = true := by
  intro l h
  induction h with
  | nil => rfl
  | fetch t hl ih => simpa [syncOK] using ih
  | chunk t p i hl ih => simpa [dispatchChunk, syncOK] using ih

theorem cancelOK_of_blocky : ∀ {l : List TraceEvent}, Blocky l → cancelOK l = true := by
  intro l h
  induction h with
  | nil => rfl
  | fetch t hl ih => simpa [cancelOK] using ih
  | chunk t p i hl ih => simpa [dispatchChunk, cancelOK] using ih

theorem prefBound_of_blocky : ∀ {l : List TraceEvent}, Blocky l → PrefBound l := by
  intro l h
  induction h with
  | nil => intro n; simp
  | fetch t hl ih =>
    intro n
    cases n with
    | zero => simp
    | succ k =>
      have := ih k
      simpa [List.take_succ_cons, List.countP_cons, isCallStart, isCallEnd] using this
  | chunk t p i hl ih =>
    intro n
    match n with
    | 0 => simp
    | 1 => simp [dispatchChunk, List.countP_cons, isCallStart, isCallEnd]
    | 2 => simp [dispatchChunk, List.countP_cons, isCallStart, isCallEnd]
    | (k + 3) =>
      have := ih k
      simp only [dispatchChunk, List.cons_append, List.nil_append,
        List.take_succ_cons, List.countP_cons, isCallStart, isCallEnd] at this ⊢
      omega

theorem start_has_cancel_of_blocky : ∀ {l : List TraceEvent}, Blocky l →
    ∀ t p i, TraceEvent.callStart t p i ∈ l → TraceEvent.ctxCancel t p i ∈ l := by
  intro l h
  induction h with
  | nil => intro t p i hm; simp at hm
  | fetch t2 hl ih =>
    intro t p i hm
    rcases List.mem_cons.mp hm with hh | hh
    · exact absurd hh (by simp)
    · exact List.mem_cons_of_mem _ (ih t p i hh)
  | chunk t2 p2 i2 hl ih =>
    intro t p i hm
    simp only [dispatchChunk, List.cons_append, List.nil_append] at hm ⊢
    rcases List.mem_cons.mp hm with hh | hm2
    · have h1 : t = t2 ∧ p = p2 ∧ i = i2 := by
        injection hh with a b c
        exact ⟨a, b, c⟩
      simp [h1.1, h1.2.1, h1.2.2]
    · rcases List.mem_cons.mp hm2 with hh | hm3
      · exact absurd hh (by simp)
      · rcases List.mem_cons.mp hm3 with hh | hm4
        · exact absurd hh (by simp)
        · simp [ih t p i hm4]

/-- C9: callback invocation is synchronous and blocking with respect to
the scheduling loop.  In every poll-cycle trace each recorded invocation
start is immediately followed by that invocation's return (`syncOK`), so
the loop evaluates no further row or watch until the current callback
has returned, and at every point of the cycle at most one invocation is
active (`PrefBound`) — in particular at most one per (table, row, watch)
triple. -/
theorem claim9_synchronous_dispatch (c : AirtableClient) (ws : List Watch) :
    syncOK (pollCycle c ws).1 = true ∧ PrefBound (pollCycle c ws).1 :=
  ⟨syncOK_of_blocky (blocky_pollCycle c ws), prefBound_of_blocky (blocky_pollCycle c ws)⟩

/-- C5: in every poll-cycle trace, each callback return is immediately
followed by the cancellation of that invocation's context — before the
next watch or row is evaluated (`cancelOK`) — and every dispatched
invocation's context has been cancelled by the end of the cycle
(cancellation is recorded by the scheduler regardless of whether the
supervisor already cancelled the context, which is harmless since
cancelling is idempotent). -/
theorem claim5_cancel_after_callback (c : AirtableClient) (ws : List Watch) :
    cancelOK (pollCycle c ws).1 = true ∧
    (∀ t p i, TraceEvent.callStart t p i ∈ (pollCycle c ws).1 →
      TraceEvent.ctxCancel t p i ∈ (pollCycle c ws).1) :=
  ⟨cancelOK_of_blocky (blocky_pollCycle c ws),
   start_has_cancel_of_blocky (blocky_pollCycle c ws)⟩

/-- Witness for C5 at a concrete client and registry with one dispatch. -/
theorem claim5_cancel_after_callback_witness :
    TraceEvent.ctxCancel "Tasks" 0 0 ∈
      (pollCycle
        ⟨fun _ => .ok [Row.mk "r1" (.map [("State", .str "ToDo")])], fun _ _ => .error "unused"⟩
        [⟨"Tasks", "State", "ToDo", ["Cancel"]⟩]).1 :=
  (claim5_cancel_after_callback
    ⟨fun _ => .ok [Row.mk "r1" (.map [("State", .str "ToDo")])], fun _ _ => .error "unused"⟩
    [⟨"Tasks", "State", "ToDo", ["Cancel"]⟩]).2 "Tasks" 0 0 (by decide)

/-- The supervisor reads its dispatch-time snapshot only through the
row's id: runs over snapshots sharing an id are identical. -/
theorem watchForCancelRun_id_only (store : Nat → AirtableClient)
    (doneAtCheck : Nat → Bool) (w : Watch) :
    ∀ (fuel iter : Nat) (row row2 : Row), row.ID = row2.ID →
      watchForCancelRun store doneAtCheck w row iter fuel =
        watchForCancelRun store doneAtCheck w row2 iter fuel := by
  intro fuel
  induction fuel with
  | zero => intro iter row row2 h; rfl
  | succ f ih =>
    intro iter row row2 h
    rw [watchForCancelRun, watchForCancelRun, h]
    cases hg : GetRow (store iter) w.tableName row2.ID with
    | error e => rfl
    | ok rowUpdated => rw [ih (iter + 1) row row2 h]

/-- C3: each supervisor iteration fetches the row fresh by id — the
dispatch-time snapshot contributes nothing but the id (first conjunct) —
and then: a failing single-row fetch makes the supervisor terminate
silently, recording no cancellation and surfacing nothing (second
conjunct); a fetched field string equal to any registered cancel value
makes it cancel the bound invocation context and terminate (third
conjunct). -/
theorem claim3_supervisor_iteration (store : Nat → AirtableClient)
    (doneAtCheck : Nat → Bool) (w : Watch) (row : Row) (iter fuel : Nat) :
    (∀ row2 : Row, row.ID = row2.ID →
      watchForCancelRun store doneAtCheck w row iter fuel =
        watchForCancelRun store doneAtCheck w row2 iter fuel) ∧
    (∀ e, GetRow (store iter) w.tableName row.ID = .error e →
      watchForCancelRun store doneAtCheck w row iter (fuel + 1) =
        ([.fetchRow iter], some (.fetchFailed iter))) ∧
    (∀ rowUpdated, GetRow (store iter) w.tableName row.ID = .ok rowUpdated →
      w.cancelValues.contains (rowUpdated.GetFieldString w.fieldName) = true →
      watchForCancelRun store doneAtCheck w row iter (fuel + 1) =
        ([.fetchRow iter, .cancelCall iter], some (.cancelled iter))) := by
  refine ⟨fun row2 h => watchForCancelRun_id_only store doneAtCheck w fuel iter row row2 h,
    ?_, ?_⟩
  · intro e h
    rw [watchForCancelRun, h]
  · intro rowUpdated h hc
    have hm : rowUpdated.GetFieldString w.fieldName ∈ w.cancelValues := by
      simpa using hc
    rw [watchForCancelRun, h]
    simp [hm]

/-- Witness for C3: a cancel value reached on the fresh fetch cancels
and terminates at iteration 0. -/
theorem claim3_supervisor_iteration_witness :
    watchForCancelRun
      (fun _ => ⟨fun _ => .error "unused",
        fun _ _ => .ok (Row.mk "r1" (.map [("State", .str "Cancel")]))⟩)
      (fun _ => false) ⟨"Tasks", "State", "ToDo", ["Cancel"]⟩
      (Row.mk "r1" (.map [("State", .str "ToDo")])) 0 3 =
      ([.fetchRow 0, .cancelCall 0], some (.cancelled 0)) :=
  (claim3_supervisor_iteration
    (fun _ => ⟨fun _ => .error "unused",
      fun _ _ => .ok (Row.mk "r1" (.map [("State", .str "Cancel")]))⟩)
    (fun _ => false) ⟨"Tasks", "State", "ToDo", ["Cancel"]⟩
    (Row.mk "r1" (.map [("State", .str "ToDo")])) 0 2).2.2
    (Row.mk "r1" (.map [("State", .str "Cancel")])) rfl (by decide)

/-- The iteration recorded in a supervisor exit. -/
def exitIter : SupExit → Nat
  | .fetchFailed n => n
  | .cancelled n => n
  | .ctxDone n => n

/-- C4 as stated: once the supervised callback has returned — modelled by
`doneAtFetch n`, the bound context being done before the fetch of
iteration `n` (`doneAtFetch`/`doneAtCheck` are consistent with the
within-iteration order: the fetch of an iteration precedes its check,
and a context done at one check is still done at the next fetch) — the
supervisor performs no further row fetch at any iteration from `n` on. -/
def SupervisorNoFetchAfterReturn : Prop :=
  ∀ (store : Nat → AirtableClient) (doneAtFetch doneAtCheck : Nat → Bool)
    (w : Watch) (row : Row),
    (∀ n, doneAtFetch n = true → doneAtCheck n = true) →
    (∀ n, doneAtCheck n = true → doneAtFetch (n + 1) = true) →
    ∀ (fuel n m : Nat), doneAtFetch n = true → n ≤ m →
      SupEvent.fetchRow m ∉ (watchForCancelRun store doneAtCheck w row 0 fuel).1

/-- Counterexample to C4 as stated: the context becomes done right after
the check of iteration 0 (so it is done before the fetch of iteration
1), yet the supervisor still performs the fetch of iteration 1, because
each loop iteration fetches before it checks the context. -/
theorem claim4_counterexample : ¬ SupervisorNoFetchAfterReturn := by
  intro h
  have hm := h
    (fun _ => ⟨fun _ => .error "unused",
      fun _ _ => .ok (Row.mk "r1" (.map [("State", .str "Run")]))⟩)
    (fun n => decide (1 ≤ n)) (fun n => decide (1 ≤ n))
    ⟨"Tasks", "State", "ToDo", ["Cancel"]⟩ (Row.mk "r1" (.map [("State", .str "Run")]))
    (fun n hn => hn)
    (fun n hn => by simp only [decide_eq_true_eq] at hn ⊢; omega)
    2 1 1 (by decide) (Nat.le_refl 1)
  exact hm (by decide)

/-- C4 amended: the supervisor terminates no later than its next check
of the execution context — if the context is done at the check of
iteration `n`, the run from any iteration `iter ≤ n` exits by iteration
`n` (given fuel for those iterations) and records no fetch and no
cancellation action at any iteration after `n`.  Hence once the callback
has returned, at most the current iteration's single fetch (and at most
one idempotent cancellation) can still happen. -/
theorem claim4_amended_supervisor_bounded (store : Nat → AirtableClient)
    (doneAtCheck : Nat → Bool) (w : Watch) (row : Row) :
    (∀ (fuel iter n m : Nat), iter ≤ n → doneAtCheck n = true → n < m →
      SupEvent.fetchRow m ∉ (watchForCancelRun store doneAtCheck w row iter fuel).1 ∧
      SupEvent.cancelCall m ∉ (watchForCancelRun store doneAtCheck w row iter fuel).1) ∧
    (∀ (fuel iter n : Nat), iter ≤ n → doneAtCheck n = true → n - iter < fuel →
      ∃ ex, (watchForCancelRun store doneAtCheck w row iter fuel).2 = some ex ∧
        exitIter ex ≤ n) := by
  constructor
  · intro fuel
    induction fuel with
    | zero => intro iter n m _ _ _; simp [watchForCancelRun]
    | succ f ih =>
      intro iter n m hin hdone hnm
      rw [watchForCancelRun]
      cases hg : GetRow (store iter) w.tableName row.ID with
      | error e =>
        exact ⟨by simp; omega, by simp⟩
      | ok rowUpdated =>
        simp only []
        by_cases hc : rowUpdated.GetFieldString w.fieldName ∈ w.cancelValues
        · constructor <;> (simp [hc]; omega)
        · by_cases hd : doneAtCheck iter = true
          · exact ⟨by simp [hc, hd]; omega, by simp [hc, hd]⟩
          · have hlt : iter < n := by
              rcases Nat.lt_or_ge iter n with h | h
              · exact h
              · have heq : iter = n := by omega
                rw [heq] at hd; exact absurd hdone hd
            have hih := ih (iter + 1) n m (by omega) hdone hnm
            have hcb : ¬(w.cancelValues.contains (rowUpdated.GetFieldString w.fieldName) = true) := by
              simpa using hc
            constructor
            · intro hmem
              rw [if_neg hcb, if_neg hd] at hmem
              rcases List.mem_cons.mp hmem with hh | hh
              · have : m = iter := by injection hh
                omega
              · exact hih.1 hh
            · intro hmem
              rw [if_neg hcb, if_neg hd] at hmem
              rcases List.mem_cons.mp hmem with hh | hh
              · exact absurd hh (by simp)
              · exact hih.2 hh
  · intro fuel
    induction fuel with
    | zero => intro iter n _ _ hlt; omega
    | succ f ih =>
      intro iter n hin hdone hlt
      rw [watchForCancelRun]
      cases hg : GetRow (store iter) w.tableName row.ID with
      | error e => exact ⟨.fetchFailed iter, rfl, by simpa [exitIter] using hin⟩
      | ok rowUpdated =>
        simp only []
        by_cases hc : rowUpdated.GetFieldString w.fieldName ∈ w.cancelValues
        · exact ⟨.cancelled iter, by simp [hc], by simpa [exitIter] using hin⟩
        · by_cases hd : doneAtCheck iter = true
          · exact ⟨.ctxDone iter, by simp [hc, hd], by simpa [exitIter] using hin⟩
          · have hltn : iter < n := by
              rcases Nat.lt_or_ge iter n with h | h
              · exact h
              · have heq : iter = n := by omega
                rw [heq] at hd; exact absurd hdone hd
            have hih := ih (iter + 1) n (by omega) hdone (by omega)
            rcases hih with ⟨ex, hex, hexle⟩
            refine ⟨ex, ?_, hexle⟩
            simp [hc, hd, hex]

/-- Witness for the amended C4: a concrete run in which the context is
done at the check of iteration 1 exits by iteration 1. -/
theorem claim4_amended_supervisor_bounded_witness :
    ∃ ex, (watchForCancelRun
      (fun _ => ⟨fun _ => .error "unused",
        fun _ _ => .ok (Row.mk "r1" (.map [("State", .str "Run")]))⟩)
      (fun n => decide (1 ≤ n)) ⟨"Tasks", "State", "ToDo", ["Cancel"]⟩
      (Row.mk "r1" (.map [("State", .str "Run")])) 0 2).2 = some ex ∧
      exitIter ex ≤ 1 :=
  (claim4_amended_supervisor_bounded
    (fun _ => ⟨fun _ => .error "unused",
      fun _ _ => .ok (Row.mk "r1" (.map [("State", .str "Run")]))⟩)
    (fun n => decide (1 ≤ n)) ⟨"Tasks", "State", "ToDo", ["Cancel"]⟩
    (Row.mk "r1" (.map [("State", .str "Run")]))).2 2 0 1
    (by omega) (by decide) (by omega)

end AirtableWatcher
